import Mathlib

/-!
Shallow embedding of the `votaciones` ink! contract (`src/lib.rs`):
an owner-gated proposal registry with one-vote-per-account tallying.

Machine integers (`u32`) are modelled as `Nat` with explicit `2^32` bounds;
`checked_add(1)` becomes `checkedAdd1`, which fails exactly when the result
would leave the unsigned 32-bit range.  The host's `Mapping` storage is
modelled as a function into `Option`, matching `get`/`insert` semantics.
Caller identities (`AccountId`) are opaque comparable values, modelled as `Nat`.
Each message returns its result together with the post-call contract state and
the list of events it emitted.
-/

namespace Votaciones

/-- `AccountId`: opaque comparable identity supplied by the host. -/
abbrev AccountId := Nat

/-- Largest value of a `u32`. -/
def U32MAX : Nat := 2 ^ 32 - 1

/-- `x.checked_add(1)` on `u32`: `none` exactly when `x + 1` would leave the
unsigned 32-bit range. -/
def checkedAdd1 (x : Nat) : Option Nat :=
  if x + 1 ≤ U32MAX then some (x + 1) else none

/-- The `Error` enum of the contract. -/
inductive Error
  | NotOwner
  | ProposalNotFound
  | AlreadyVoted
  | MaxProposalsReached
  | Overflow
deriving DecidableEq, Repr

/-- The `Proposal` struct: an id, a title and the two vote counters. -/
structure Proposal where
  id : Nat
  title : String
  votes_for : Nat
  votes_against : Nat
deriving DecidableEq, Repr

/-- The two event kinds the contract can emit. -/
inductive Event
  | ProposalCreated (id : Nat) (title : String)
  | VoteCast (proposalid : Nat) (voter : AccountId) (state : Bool)
deriving DecidableEq, Repr

/-- `Mapping::insert`: point update of a key-value store. -/
def mapInsert {α β : Type} [DecidableEq α] (m : α → Option β) (k : α) (v : β) :
    α → Option β :=
  fun x => if x = k then some v else m x

/-- The `Votaciones` contract storage. -/
structure State where
  owner : AccountId
  proposals : Nat → Option Proposal
  has_voted : Nat × AccountId → Option Bool
  next_proposal_id : Nat

/-- Constructor `new()`: records the caller as owner, empty mappings,
`next_proposal_id = 0`. -/
def State.new (caller : AccountId) : State :=
  { owner := caller
    proposals := fun _ => none
    has_voted := fun _ => none
    next_proposal_id := 0 }

/-- Message `create_proposal`: owner check, checked increment of the id
counter, insertion of the new proposal, event emission. -/
def create_proposal (caller : AccountId) (title : String) (s : State) :
    Except Error Nat × State × List Event :=
  if caller ≠ s.owner then
    (.error .NotOwner, s, [])
  else
    let id := s.next_proposal_id
    match checkedAdd1 s.next_proposal_id with
    | none => (.error .MaxProposalsReached, s, [])
    | some nid =>
      let proposal : Proposal :=
        { id := id, title := title, votes_for := 0, votes_against := 0 }
      (.ok id,
       { s with
          next_proposal_id := nid
          proposals := mapInsert s.proposals id proposal },
       [Event.ProposalCreated id title])

/-- Message `vote`: existence check, double-vote check, checked counter
increment, write-back of the proposal and of the voted flag, event emission. -/
def vote (caller : AccountId) (proposalid : Nat) (state : Bool) (s : State) :
    Except Error Unit × State × List Event :=
  match s.proposals proposalid with
  | none => (.error .ProposalNotFound, s, [])
  | some proposal =>
    let key := (proposalid, caller)
    if (s.has_voted key).getD false then
      (.error .AlreadyVoted, s, [])
    else
      let updated : Option Proposal :=
        if state then
          (checkedAdd1 proposal.votes_for).map
            fun v => { proposal with votes_for := v }
        else
          (checkedAdd1 proposal.votes_against).map
            fun v => { proposal with votes_against := v }
      match updated with
      | none => (.error .Overflow, s, [])
      | some p =>
        (.ok (),
         { s with
            proposals := mapInsert s.proposals proposalid p
            has_voted := mapInsert s.has_voted key true },
         [Event.VoteCast proposalid caller state])

/-- Message `get_proposal`: read-only lookup returning a copy of the three
fields. -/
def get_proposal (s : State) (proposal_id : Nat) :
    Except Error (String × Nat × Nat) :=
  match s.proposals proposal_id with
  | none => .error .ProposalNotFound
  | some proposal => .ok (proposal.title, proposal.votes_for, proposal.votes_against)

/-- Message `total_proposals`: returns `next_proposal_id`. -/
def total_proposals (s : State) : Nat :=
  s.next_proposal_id

/-- A call made against the contract: one of the two mutating messages,
together with its host-attributed caller. -/
inductive Op
  | create (caller : AccountId) (title : String)
  | voteOn (caller : AccountId) (proposalid : Nat) (state : Bool)

instance {ε α : Type} [DecidableEq ε] [DecidableEq α] : DecidableEq (Except ε α)
  | .error e, .error f =>
    if h : e = f then .isTrue (by rw [h]) else .isFalse (by simp [h])
  | .error _, .ok _ => .isFalse (by simp)
  | .ok _, .error _ => .isFalse (by simp)
  | .ok a, .ok b =>
    if h : a = b then .isTrue (by rw [h]) else .isFalse (by simp [h])

/-- Result of a single mutating call. -/
inductive CallResult
  | createR (r : Except Error Nat)
  | voteR (r : Except Error Unit)
deriving DecidableEq, Repr

/-- Execute a single call, returning its result, post state and events. -/
def exec1 (s : State) : Op → CallResult × State × List Event
  | .create caller title =>
    (.createR (create_proposal caller title s).1, (create_proposal caller title s).2)
  | .voteOn caller pid b =>
    (.voteR (vote caller pid b s).1, (vote caller pid b s).2)

/-- Execute a list of calls in order, collecting results and the event log. -/
def execTrace (s : State) : List Op → List CallResult × State × List Event
  | [] => ([], s, [])
  | op :: ops =>
    ((exec1 s op).1 :: (execTrace (exec1 s op).2.1 ops).1,
     (execTrace (exec1 s op).2.1 ops).2.1,
     (exec1 s op).2.2 ++ (execTrace (exec1 s op).2.1 ops).2.2)

/-- A state is reachable when some sequence of calls from a freshly
constructed ledger produces it. -/
def Reachable (s : State) : Prop :=
  ∃ deployer ops, (execTrace (State.new deployer) ops).2.1 = s

/-- Voters recorded in the event log as having successfully voted on proposal
`pid` with support value `b`, in order of occurrence. -/
def votersFor (log : List Event) (pid : Nat) (b : Bool) : List AccountId :=
  log.filterMap fun e =>
    match e with
    | .VoteCast p v st => if p = pid ∧ st = b then some v else none
    | _ => none

/-- Invariant tying the contract state to the event log produced so far:
the id counter stays within `u32` range, ids at or above the counter are
unassigned, only `true` is ever stored in `has_voted`, a voted flag is set
exactly for the voters recorded in the log, no voter is recorded twice for
the same proposal, and each stored proposal's counters equal the number of
recorded voters on each side. -/
structure Inv (s : State) (log : List Event) : Prop where
  next_le : s.next_proposal_id ≤ U32MAX
  fresh_none : ∀ id, s.next_proposal_id ≤ id → s.proposals id = none
  voted_true : ∀ k b, s.has_voted k = some b → b = true
  voted_iff : ∀ pid v, s.has_voted (pid, v) = some true ↔
      (v ∈ votersFor log pid true ∨ v ∈ votersFor log pid false)
  voters_nodup : ∀ pid, (votersFor log pid true ++ votersFor log pid false).Nodup
  tally : ∀ pid p, s.proposals pid = some p →
      p.id = pid ∧ p.votes_for = (votersFor log pid true).length ∧
      p.votes_against = (votersFor log pid false).length
  no_votes : ∀ pid, s.proposals pid = none →
      votersFor log pid true = [] ∧ votersFor log pid false = []

/-- Whether a call result is a successful `create_proposal`. -/
def createSucceeded : CallResult → Bool
  | .createR (.ok _) => true
  | _ => false

/-- Number of successful `create_proposal` calls among the results. -/
def successfulCreates (rs : List CallResult) : Nat :=
  (rs.filter createSucceeded).length

/-! ### Characterisation of the individual messages -/

theorem create_not_owner (caller : AccountId) (title : String) (s : State)
    (h : caller ≠ s.owner) :
    create_proposal caller title s = (.error .NotOwner, s, []) := by
  simp [create_proposal, h]

theorem create_max (caller : AccountId) (title : String) (s : State)
    (h : caller = s.owner) (h2 : U32MAX < s.next_proposal_id + 1) :
    create_proposal caller title s = (.error .MaxProposalsReached, s, []) := by
  simp [create_proposal, h, checkedAdd1, Nat.not_le.mpr h2]

theorem create_ok (caller : AccountId) (title : String) (s : State)
    (h : caller = s.owner) (h2 : s.next_proposal_id + 1 ≤ U32MAX) :
    create_proposal caller title s =
      (.ok s.next_proposal_id,
       { s with
          next_proposal_id := s.next_proposal_id + 1
          proposals := mapInsert s.proposals s.next_proposal_id
            { id := s.next_proposal_id, title := title
              votes_for := 0, votes_against := 0 } },
       [Event.ProposalCreated s.next_proposal_id title]) := by
  simp [create_proposal, h, checkedAdd1, h2]

theorem vote_not_found (caller : AccountId) (pid : Nat) (b : Bool) (s : State)
    (h : s.proposals pid = none) :
    vote caller pid b s = (.error .ProposalNotFound, s, []) := by
  simp [vote, h]

theorem vote_already (caller : AccountId) (pid : Nat) (b : Bool) (s : State)
    (p : Proposal) (h : s.proposals pid = some p)
    (h2 : (s.has_voted (pid, caller)).getD false = true) :
    vote caller pid b s = (.error .AlreadyVoted, s, []) := by
  simp [vote, h, h2]

theorem vote_ok_true (caller : AccountId) (pid : Nat) (s : State)
    (p : Proposal) (v : Nat) (h : s.proposals pid = some p)
    (h2 : (s.has_voted (pid, caller)).getD false = false)
    (h3 : checkedAdd1 p.votes_for = some v) :
    vote caller pid true s =
      (.ok (),
       { s with
          proposals := mapInsert s.proposals pid { p with votes_for := v }
          has_voted := mapInsert s.has_voted (pid, caller) true },
       [Event.VoteCast pid caller true]) := by
  simp [vote, h, h2, h3]

theorem vote_ok_false (caller : AccountId) (pid : Nat) (s : State)
    (p : Proposal) (v : Nat) (h : s.proposals pid = some p)
    (h2 : (s.has_voted (pid, caller)).getD false = false)
    (h3 : checkedAdd1 p.votes_against = some v) :
    vote caller pid false s =
      (.ok (),
       { s with
          proposals := mapInsert s.proposals pid { p with votes_against := v }
          has_voted := mapInsert s.has_voted (pid, caller) true },
       [Event.VoteCast pid caller false]) := by
  simp [vote, h, h2, h3]

theorem vote_overflow_true (caller : AccountId) (pid : Nat) (s : State)
    (p : Proposal) (h : s.proposals pid = some p)
    (h2 : (s.has_voted (pid, caller)).getD false = false)
    (h3 : checkedAdd1 p.votes_for = none) :
    vote caller pid true s = (.error .Overflow, s, []) := by
  simp [vote, h, h2, h3]

theorem vote_overflow_false (caller : AccountId) (pid : Nat) (s : State)
    (p : Proposal) (h : s.proposals pid = some p)
    (h2 : (s.has_voted (pid, caller)).getD false = false)
    (h3 : checkedAdd1 p.votes_against = none) :
    vote caller pid false s = (.error .Overflow, s, []) := by
  simp [vote, h, h2, h3]

theorem create_fail (caller : AccountId) (title : String) (s : State)
    (e : Error) (h : (create_proposal caller title s).1 = .error e) :
    (create_proposal caller title s).2 = (s, []) := by
  by_cases ho : caller = s.owner
  · by_cases hn : s.next_proposal_id + 1 ≤ U32MAX
    · rw [create_ok caller title s ho hn] at h
      simp at h
    · rw [create_max caller title s ho (Nat.not_le.mp hn)]
  · rw [create_not_owner caller title s ho]

theorem vote_fail (caller : AccountId) (pid : Nat) (b : Bool) (s : State)
    (e : Error) (h : (vote caller pid b s).1 = .error e) :
    (vote caller pid b s).2 = (s, []) := by
  cases hp : s.proposals pid with
  | none => rw [vote_not_found caller pid b s hp]
  | some p =>
    cases hv : (s.has_voted (pid, caller)).getD false with
    | true => rw [vote_already caller pid b s p hp hv]
    | false =>
      cases b with
      | true =>
        cases hc : checkedAdd1 p.votes_for with
        | none => rw [vote_overflow_true caller pid s p hp hv hc]
        | some v =>
          rw [vote_ok_true caller pid s p v hp hv hc] at h
          simp at h
      | false =>
        cases hc : checkedAdd1 p.votes_against with
        | none => rw [vote_overflow_false caller pid s p hp hv hc]
        | some v =>
          rw [vote_ok_false caller pid s p v hp hv hc] at h
          simp at h

/-! ### Event-log bookkeeping -/

theorem checkedAdd1_some (x v : Nat) (h : checkedAdd1 x = some v) :
    v = x + 1 ∧ x + 1 ≤ U32MAX := by
  unfold checkedAdd1 at h
  split at h
  · exact ⟨(Option.some_inj.mp h).symm, by assumption⟩
  · exact absurd h (by simp)

theorem mapInsert_same {α β : Type} [DecidableEq α] (m : α → Option β)
    (k : α) (v : β) : mapInsert m k v k = some v := by
  simp [mapInsert]

theorem mapInsert_other {α β : Type} [DecidableEq α] (m : α → Option β)
    (k x : α) (v : β) (h : x ≠ k) : mapInsert m k v x = m x := by
  simp [mapInsert, h]

theorem votersFor_append (l1 l2 : List Event) (pid : Nat) (b : Bool) :
    votersFor (l1 ++ l2) pid b = votersFor l1 pid b ++ votersFor l2 pid b := by
  simp [votersFor]

theorem votersFor_created (i : Nat) (t : String) (pid : Nat) (b : Bool) :
    votersFor [Event.ProposalCreated i t] pid b = [] := rfl

theorem votersFor_cast (p : Nat) (v : AccountId) (st : Bool) (pid : Nat) (b : Bool) :
    votersFor [Event.VoteCast p v st] pid b =
      if p = pid ∧ st = b then [v] else [] := by
  by_cases h : p = pid ∧ st = b
  · simp [votersFor, h]
  · simp [votersFor, h]

theorem votersFor_log_created (log : List Event) (i : Nat) (t : String)
    (pid : Nat) (b : Bool) :
    votersFor (log ++ [Event.ProposalCreated i t]) pid b = votersFor log pid b := by
  rw [votersFor_append, votersFor_created, List.append_nil]

theorem votersFor_log_cast (log : List Event) (p : Nat) (v : AccountId)
    (st : Bool) (pid : Nat) (b : Bool) :
    votersFor (log ++ [Event.VoteCast p v st]) pid b =
      votersFor log pid b ++ (if p = pid ∧ st = b then [v] else []) := by
  rw [votersFor_append, votersFor_cast]

/-! ### The reachable-state invariant -/

theorem inv_new (c : AccountId) : Inv (State.new c) [] := by
  refine ⟨?_, ?_, ?_, ?_, ?_, ?_, ?_⟩ <;> simp [State.new, votersFor, U32MAX]

theorem inv_create (caller : AccountId) (title : String) (s : State)
    (log : List Event) (hInv : Inv s log) :
    Inv (create_proposal caller title s).2.1
      (log ++ (create_proposal caller title s).2.2) := by
  by_cases ho : caller = s.owner
  · by_cases hn : s.next_proposal_id + 1 ≤ U32MAX
    · rw [create_ok caller title s ho hn]
      dsimp only
      refine ⟨hn, ?_, hInv.voted_true, ?_, ?_, ?_, ?_⟩
      · intro id2 h2
        dsimp only at h2 ⊢
        have hne : id2 ≠ s.next_proposal_id := by omega
        rw [mapInsert_other _ _ _ _ hne]
        exact hInv.fresh_none id2 (by omega)
      · intro pid v
        rw [votersFor_log_created, votersFor_log_created]
        exact hInv.voted_iff pid v
      · intro pid
        rw [votersFor_log_created, votersFor_log_created]
        exact hInv.voters_nodup pid
      · intro pid p hp
        dsimp only at hp
        rw [votersFor_log_created, votersFor_log_created]
        by_cases hpe : pid = s.next_proposal_id
        · rw [hpe, mapInsert_same] at hp
          have hpp := Option.some_inj.mp hp
          have hnone := hInv.fresh_none s.next_proposal_id le_rfl
          have hzero := hInv.no_votes s.next_proposal_id hnone
          rw [← hpp, hpe, hzero.1, hzero.2]
          exact ⟨rfl, rfl, rfl⟩
        · rw [mapInsert_other _ _ _ _ hpe] at hp
          exact hInv.tally pid p hp
      · intro pid hp
        dsimp only at hp
        rw [votersFor_log_created, votersFor_log_created]
        by_cases hpe : pid = s.next_proposal_id
        · rw [hpe, mapInsert_same] at hp
          exact absurd hp (by simp)
        · rw [mapInsert_other _ _ _ _ hpe] at hp
          exact hInv.no_votes pid hp
    · rw [create_max caller title s ho (Nat.not_le.mp hn)]
      simpa using hInv
  · rw [create_not_owner caller title s ho]
    simpa using hInv

theorem vlc_match (log : List Event) (pid : Nat) (caller : AccountId) (b : Bool) :
    votersFor (log ++ [Event.VoteCast pid caller b]) pid b =
      votersFor log pid b ++ [caller] := by
  rw [votersFor_log_cast]
  simp

theorem vlc_diff_side (log : List Event) (pid : Nat) (caller : AccountId)
    (b b' : Bool) (h : b ≠ b') :
    votersFor (log ++ [Event.VoteCast pid caller b]) pid b' =
      votersFor log pid b' := by
  rw [votersFor_log_cast]
  simp [h]

theorem vlc_diff_pid (log : List Event) (pid : Nat) (caller : AccountId)
    (b : Bool) (pid' : Nat) (b' : Bool) (h : pid ≠ pid') :
    votersFor (log ++ [Event.VoteCast pid caller b]) pid' b' =
      votersFor log pid' b' := by
  rw [votersFor_log_cast]
  simp [h]

theorem mem_ite_singleton {α : Type} {x y : α} {c : Prop} [Decidable c]
    (h : x ∈ (if c then [y] else ([] : List α))) : x = y ∧ c := by
  split at h
  · simp at h
    exact ⟨h, by assumption⟩
  · simp at h

theorem inv_vote_ok (caller : AccountId) (pid : Nat) (b : Bool) (s : State)
    (log : List Event) (p p2 : Proposal) (hInv : Inv s log)
    (hp : s.proposals pid = some p)
    (hv : (s.has_voted (pid, caller)).getD false = false)
    (hid : p2.id = p.id)
    (hfor : p2.votes_for = if b = true then p.votes_for + 1 else p.votes_for)
    (hagn : p2.votes_against =
      if b = true then p.votes_against else p.votes_against + 1) :
    Inv { s with
            proposals := mapInsert s.proposals pid p2
            has_voted := mapInsert s.has_voted (pid, caller) true }
        (log ++ [Event.VoteCast pid caller b]) := by
  have hplt : ¬ s.next_proposal_id ≤ pid := by
    intro h
    rw [hInv.fresh_none pid h] at hp
    exact absurd hp (by simp)
  have hnv : ¬ s.has_voted (pid, caller) = some true := by
    intro h
    rw [h] at hv
    simp at hv
  have hnm : ¬ (caller ∈ votersFor log pid true ∨
      caller ∈ votersFor log pid false) :=
    fun h => hnv ((hInv.voted_iff pid caller).mpr h)
  have hnA : caller ∉ votersFor log pid true := fun h => hnm (Or.inl h)
  have hnB : caller ∉ votersFor log pid false := fun h => hnm (Or.inr h)
  have hnAB : caller ∉ votersFor log pid true ++ votersFor log pid false := by
    intro h
    rcases List.mem_append.mp h with h2 | h2
    · exact hnA h2
    · exact hnB h2
  obtain ⟨hid0, hfor0, hagn0⟩ := hInv.tally pid p hp
  refine ⟨hInv.next_le, ?_, ?_, ?_, ?_, ?_, ?_⟩
  · intro id2 h2
    dsimp only at h2 ⊢
    have hne : id2 ≠ pid := by omega
    rw [mapInsert_other _ _ _ _ hne]
    exact hInv.fresh_none id2 h2
  · intro k b2 hk
    dsimp only at hk
    by_cases hke : k = (pid, caller)
    · rw [hke, mapInsert_same] at hk
      exact (Option.some_inj.mp hk).symm
    · rw [mapInsert_other _ _ _ _ hke] at hk
      exact hInv.voted_true k b2 hk
  · intro pid' v'
    dsimp only
    rw [votersFor_log_cast, votersFor_log_cast]
    by_cases hke : (pid', v') = (pid, caller)
    · injection hke with h1 h2
      subst h1
      subst h2
      rw [mapInsert_same]
      constructor
      · intro _
        cases b with
        | false => exact Or.inr (List.mem_append_right _ (by simp))
        | true => exact Or.inl (List.mem_append_right _ (by simp))
      · intro _
        rfl
    · rw [mapInsert_other _ _ _ _ hke]
      constructor
      · intro h
        rcases (hInv.voted_iff pid' v').mp h with h2 | h2
        · exact Or.inl (List.mem_append_left _ h2)
        · exact Or.inr (List.mem_append_left _ h2)
      · intro h
        apply (hInv.voted_iff pid' v').mpr
        rcases h with h2 | h2
        · rcases List.mem_append.mp h2 with h3 | h3
          · exact Or.inl h3
          · obtain ⟨hvc, hppid, _⟩ := mem_ite_singleton h3
            exact absurd (by rw [hvc, hppid]) hke
        · rcases List.mem_append.mp h2 with h3 | h3
          · exact Or.inr h3
          · obtain ⟨hvc, hppid, _⟩ := mem_ite_singleton h3
            exact absurd (by rw [hvc, hppid]) hke
  · intro pid'
    by_cases hpe : pid' = pid
    · subst hpe
      cases b with
      | true =>
        rw [vlc_match, vlc_diff_side log pid' caller true false (by simp)]
        rw [List.append_assoc, List.singleton_append, List.nodup_middle,
          List.nodup_cons]
        exact ⟨hnAB, hInv.voters_nodup pid'⟩
      | false =>
        rw [vlc_match, vlc_diff_side log pid' caller false true (by simp)]
        rw [← List.append_assoc, List.nodup_middle, List.nodup_cons,
          List.append_nil]
        exact ⟨hnAB, hInv.voters_nodup pid'⟩
    · have hpe2 : pid ≠ pid' := fun h => hpe h.symm
      rw [vlc_diff_pid _ _ _ _ _ _ hpe2, vlc_diff_pid _ _ _ _ _ _ hpe2]
      exact hInv.voters_nodup pid'
  · intro pid' q hq
    dsimp only at hq
    by_cases hpe : pid' = pid
    · subst hpe
      rw [mapInsert_same] at hq
      obtain rfl := Option.some_inj.mp hq
      cases b with
      | true =>
        rw [vlc_match, vlc_diff_side log pid' caller true false (by simp)]
        simp at hfor hagn
        refine ⟨by rw [hid, hid0], ?_, ?_⟩
        · rw [hfor, hfor0]
          simp
        · rw [hagn, hagn0]
      | false =>
        rw [vlc_match, vlc_diff_side log pid' caller false true (by simp)]
        simp at hfor hagn
        refine ⟨by rw [hid, hid0], ?_, ?_⟩
        · rw [hfor, hfor0]
        · rw [hagn, hagn0]
          simp
    · have hpe2 : pid ≠ pid' := fun h => hpe h.symm
      rw [mapInsert_other _ _ _ _ hpe] at hq
      rw [vlc_diff_pid _ _ _ _ _ _ hpe2, vlc_diff_pid _ _ _ _ _ _ hpe2]
      exact hInv.tally pid' q hq
  · intro pid' hq
    dsimp only at hq
    by_cases hpe : pid' = pid
    · rw [hpe, mapInsert_same] at hq
      exact absurd hq (by simp)
    · have hpe2 : pid ≠ pid' := fun h => hpe h.symm
      rw [mapInsert_other _ _ _ _ hpe] at hq
      rw [vlc_diff_pid _ _ _ _ _ _ hpe2, vlc_diff_pid _ _ _ _ _ _ hpe2]
      exact hInv.no_votes pid' hq

theorem inv_vote (caller : AccountId) (pid : Nat) (b : Bool) (s : State)
    (log : List Event) (hInv : Inv s log) :
    Inv (vote caller pid b s).2.1 (log ++ (vote caller pid b s).2.2) := by
  cases hp : s.proposals pid with
  | none =>
    rw [vote_not_found caller pid b s hp]
    simpa using hInv
  | some p =>
    cases hv : (s.has_voted (pid, caller)).getD false with
    | true =>
      rw [vote_already caller pid b s p hp hv]
      simpa using hInv
    | false =>
      cases b with
      | true =>
        cases hc : checkedAdd1 p.votes_for with
        | none =>
          rw [vote_overflow_true caller pid s p hp hv hc]
          simpa using hInv
        | some v =>
          rw [vote_ok_true caller pid s p v hp hv hc]
          have hcv := (checkedAdd1_some _ _ hc).1
          exact inv_vote_ok caller pid true s log p _ hInv hp hv rfl
            (by simp [hcv]) (by simp)
      | false =>
        cases hc : checkedAdd1 p.votes_against with
        | none =>
          rw [vote_overflow_false caller pid s p hp hv hc]
          simpa using hInv
        | some v =>
          rw [vote_ok_false caller pid s p v hp hv hc]
          have hcv := (checkedAdd1_some _ _ hc).1
          exact inv_vote_ok caller pid false s log p _ hInv hp hv rfl
            (by simp) (by simp [hcv])

theorem inv_exec1 (s : State) (log : List Event) (op : Op) (hInv : Inv s log) :
    Inv (exec1 s op).2.1 (log ++ (exec1 s op).2.2) := by
  cases op with
  | create caller title => exact inv_create caller title s log hInv
  | voteOn caller pid b => exact inv_vote caller pid b s log hInv

theorem inv_execTrace (ops : List Op) : ∀ (s : State) (log : List Event),
    Inv s log → Inv (execTrace s ops).2.1 (log ++ (execTrace s ops).2.2) := by
  induction ops with
  | nil =>
    intro s log h
    simpa [execTrace] using h
  | cons op ops ih =>
    intro s log h
    have h2 := inv_exec1 s log op h
    have h3 := ih (exec1 s op).2.1 (log ++ (exec1 s op).2.2) h2
    simpa [execTrace, List.append_assoc] using h3

theorem reachable_inv (s : State) (h : Reachable s) : ∃ log, Inv s log := by
  obtain ⟨d, ops, rfl⟩ := h
  exact ⟨_, by simpa using inv_execTrace ops (State.new d) [] (inv_new d)⟩

/-- C1: every failing `create_proposal` or `vote` call leaves the contract
state (proposals, has_voted, next_proposal_id) exactly as it was and emits no
event. -/
theorem C1_atomic_failure :
    (∀ (caller : AccountId) (title : String) (s : State) (e : Error),
        (create_proposal caller title s).1 = .error e →
        (create_proposal caller title s).2.1 = s ∧
        (create_proposal caller title s).2.2 = []) ∧
    (∀ (caller : AccountId) (pid : Nat) (b : Bool) (s : State) (e : Error),
        (vote caller pid b s).1 = .error e →
        (vote caller pid b s).2.1 = s ∧
        (vote caller pid b s).2.2 = []) := by
  constructor
  · intro caller title s e h
    have h2 := create_fail caller title s e h
    rw [h2]
    exact ⟨rfl, rfl⟩
  · intro caller pid b s e h
    have h2 := vote_fail caller pid b s e h
    rw [h2]
    exact ⟨rfl, rfl⟩

/-- Witness for C1 at concrete failing calls. -/
theorem C1_atomic_failure_witness :
    ((create_proposal 1 "t" (State.new 0)).1 = .error .NotOwner ∧
      (create_proposal 1 "t" (State.new 0)).2.1 = State.new 0 ∧
      (create_proposal 1 "t" (State.new 0)).2.2 = []) ∧
    ((vote 1 0 true (State.new 0)).1 = .error .ProposalNotFound ∧
      (vote 1 0 true (State.new 0)).2.1 = State.new 0 ∧
      (vote 1 0 true (State.new 0)).2.2 = []) := by
  refine ⟨⟨rfl, ?_⟩, ⟨rfl, ?_⟩⟩
  · exact C1_atomic_failure.1 1 "t" (State.new 0) .NotOwner rfl
  · exact C1_atomic_failure.2 1 0 true (State.new 0) .ProposalNotFound rfl

/-- C2: for any caller other than the owner, `create_proposal` returns
`NotOwner` and `total_proposals` is unchanged. -/
theorem C2_ownership_gate (caller : AccountId) (title : String) (s : State)
    (h : caller ≠ s.owner) :
    (create_proposal caller title s).1 = .error .NotOwner ∧
    total_proposals (create_proposal caller title s).2.1 = total_proposals s := by
  rw [create_not_owner caller title s h]
  exact ⟨rfl, rfl⟩

/-- Witness for C2: caller 1 against a ledger owned by 0. -/
theorem C2_ownership_gate_witness :
    (create_proposal 1 "Tema" (State.new 0)).1 = .error .NotOwner ∧
    total_proposals (create_proposal 1 "Tema" (State.new 0)).2.1 =
      total_proposals (State.new 0) :=
  C2_ownership_gate 1 "Tema" (State.new 0) (by decide)

/-! ### Counter and trace bookkeeping -/

theorem create_ok_id (caller : AccountId) (title : String) (s : State) (v : Nat)
    (h : (create_proposal caller title s).1 = .ok v) : v = s.next_proposal_id := by
  by_cases ho : caller = s.owner
  · by_cases hn : s.next_proposal_id + 1 ≤ U32MAX
    · rw [create_ok caller title s ho hn] at h
      dsimp only at h
      injection h with h2
      exact h2.symm
    · rw [create_max caller title s ho (Nat.not_le.mp hn)] at h
      simp at h
  · rw [create_not_owner caller title s ho] at h
    simp at h

theorem exec1_ok_id (s : State) (op : Op) (v : Nat)
    (h : (exec1 s op).1 = .createR (.ok v)) : v = s.next_proposal_id := by
  cases op with
  | create caller title =>
    dsimp only [exec1] at h
    injection h with h2
    exact create_ok_id caller title s v h2
  | voteOn caller pid b =>
    simp [exec1] at h

theorem vote_next (caller : AccountId) (pid : Nat) (b : Bool) (s : State) :
    (vote caller pid b s).2.1.next_proposal_id = s.next_proposal_id := by
  cases hp : s.proposals pid with
  | none => rw [vote_not_found caller pid b s hp]
  | some p =>
    cases hv : (s.has_voted (pid, caller)).getD false with
    | true => rw [vote_already caller pid b s p hp hv]
    | false =>
      cases b with
      | true =>
        cases hc : checkedAdd1 p.votes_for with
        | none => rw [vote_overflow_true caller pid s p hp hv hc]
        | some v => rw [vote_ok_true caller pid s p v hp hv hc]
      | false =>
        cases hc : checkedAdd1 p.votes_against with
        | none => rw [vote_overflow_false caller pid s p hp hv hc]
        | some v => rw [vote_ok_false caller pid s p v hp hv hc]

theorem exec1_next (s : State) (op : Op) :
    (exec1 s op).2.1.next_proposal_id =
      s.next_proposal_id + (if createSucceeded (exec1 s op).1 then 1 else 0) := by
  cases op with
  | create caller title =>
    dsimp only [exec1]
    by_cases ho : caller = s.owner
    · by_cases hn : s.next_proposal_id + 1 ≤ U32MAX
      · rw [create_ok caller title s ho hn]
        simp [createSucceeded]
      · rw [create_max caller title s ho (Nat.not_le.mp hn)]
        simp [createSucceeded]
    · rw [create_not_owner caller title s ho]
      simp [createSucceeded]
  | voteOn caller pid b =>
    dsimp only [exec1]
    rw [vote_next caller pid b s]
    simp [createSucceeded]

theorem successfulCreates_nil : successfulCreates [] = 0 := rfl

theorem successfulCreates_cons (r : CallResult) (rs : List CallResult) :
    successfulCreates (r :: rs) =
      (if createSucceeded r then 1 else 0) + successfulCreates rs := by
  by_cases h : createSucceeded r <;>
    simp [successfulCreates, List.filter_cons, h, Nat.add_comm]

theorem trace_total (ops : List Op) : ∀ s : State,
    (execTrace s ops).2.1.next_proposal_id =
      s.next_proposal_id + successfulCreates (execTrace s ops).1 := by
  induction ops with
  | nil =>
    intro s
    simp [execTrace, successfulCreates]
  | cons op ops ih =>
    intro s
    simp only [execTrace, successfulCreates_cons]
    rw [ih, exec1_next]
    omega

theorem trace_nth (ops : List Op) : ∀ (s : State) (i : Nat) (v : Nat),
    (execTrace s ops).1.get? i = some (.createR (.ok v)) →
    v = s.next_proposal_id + successfulCreates ((execTrace s ops).1.take i) := by
  induction ops with
  | nil =>
    intro s i v h
    simp [execTrace] at h
  | cons op ops ih =>
    intro s i v h
    simp only [execTrace] at h ⊢
    cases i with
    | zero =>
      rw [List.get?_cons_zero] at h
      have h2 := exec1_ok_id s op v (Option.some_inj.mp h)
      simpa [successfulCreates_nil] using h2
    | succ i =>
      rw [List.get?_cons_succ] at h
      have h2 := ih (exec1 s op).2.1 i v h
      rw [exec1_next] at h2
      rw [List.take_succ_cons, successfulCreates_cons]
      omega

/-! ### Frame and monotonicity of single steps -/

theorem step_mono (s : State) (log : List Event) (op : Op) (pid : Nat)
    (p : Proposal) (hInv : Inv s log) (hp : s.proposals pid = some p) :
    ∃ q, (exec1 s op).2.1.proposals pid = some q ∧
      p.votes_for ≤ q.votes_for ∧ p.votes_against ≤ q.votes_against ∧
      q.id = p.id ∧ q.title = p.title := by
  have hlt : ¬ s.next_proposal_id ≤ pid := by
    intro h
    rw [hInv.fresh_none pid h] at hp
    exact absurd hp (by simp)
  cases op with
  | create caller title =>
    dsimp only [exec1]
    by_cases ho : caller = s.owner
    · by_cases hn : s.next_proposal_id + 1 ≤ U32MAX
      · rw [create_ok caller title s ho hn]
        dsimp only
        have hne : pid ≠ s.next_proposal_id := by omega
        rw [mapInsert_other _ _ _ _ hne]
        exact ⟨p, hp, le_rfl, le_rfl, rfl, rfl⟩
      · rw [create_max caller title s ho (Nat.not_le.mp hn)]
        exact ⟨p, hp, le_rfl, le_rfl, rfl, rfl⟩
    · rw [create_not_owner caller title s ho]
      exact ⟨p, hp, le_rfl, le_rfl, rfl, rfl⟩
  | voteOn caller pid2 b =>
    dsimp only [exec1]
    cases hp2 : s.proposals pid2 with
    | none =>
      rw [vote_not_found caller pid2 b s hp2]
      exact ⟨p, hp, le_rfl, le_rfl, rfl, rfl⟩
    | some p0 =>
      cases hv2 : (s.has_voted (pid2, caller)).getD false with
      | true =>
        rw [vote_already caller pid2 b s p0 hp2 hv2]
        exact ⟨p, hp, le_rfl, le_rfl, rfl, rfl⟩
      | false =>
        cases b with
        | true =>
          cases hc : checkedAdd1 p0.votes_for with
          | none =>
            rw [vote_overflow_true caller pid2 s p0 hp2 hv2 hc]
            exact ⟨p, hp, le_rfl, le_rfl, rfl, rfl⟩
          | some v =>
            rw [vote_ok_true caller pid2 s p0 v hp2 hv2 hc]
            dsimp only
            by_cases hpe : pid = pid2
            · subst hpe
              rw [hp] at hp2
              obtain rfl := Option.some_inj.mp hp2
              rw [mapInsert_same]
              have hcv := (checkedAdd1_some _ _ hc).1
              exact ⟨_, rfl, by dsimp only; omega, le_rfl, rfl, rfl⟩
            · rw [mapInsert_other _ _ _ _ hpe]
              exact ⟨p, hp, le_rfl, le_rfl, rfl, rfl⟩
        | false =>
          cases hc : checkedAdd1 p0.votes_against with
          | none =>
            rw [vote_overflow_false caller pid2 s p0 hp2 hv2 hc]
            exact ⟨p, hp, le_rfl, le_rfl, rfl, rfl⟩
          | some v =>
            rw [vote_ok_false caller pid2 s p0 v hp2 hv2 hc]
            dsimp only
            by_cases hpe : pid = pid2
            · subst hpe
              rw [hp] at hp2
              obtain rfl := Option.some_inj.mp hp2
              rw [mapInsert_same]
              have hcv := (checkedAdd1_some _ _ hc).1
              exact ⟨_, rfl, le_rfl, by dsimp only; omega, rfl, rfl⟩
            · rw [mapInsert_other _ _ _ _ hpe]
              exact ⟨p, hp, le_rfl, le_rfl, rfl, rfl⟩

/-! ### C3 to C10 -/

/-- C3: over any call sequence from a fresh ledger, `total_proposals` equals
the number of successful `create_proposal` calls so far, and the call whose
result is the i-th entry of the trace, when it is a successful create,
returns exactly the number of successful creates that preceded it (so the
n-th successful create returns n-1). -/
theorem C3_id_monotonicity (deployer : AccountId) (ops : List Op) :
    total_proposals (execTrace (State.new deployer) ops).2.1 =
      successfulCreates (execTrace (State.new deployer) ops).1 ∧
    ∀ i v, (execTrace (State.new deployer) ops).1.get? i =
        some (.createR (.ok v)) →
      v = successfulCreates ((execTrace (State.new deployer) ops).1.take i) := by
  constructor
  · have h := trace_total ops (State.new deployer)
    simpa [total_proposals, State.new] using h
  · intro i v h
    have h2 := trace_nth ops (State.new deployer) i v h
    simpa [State.new] using h2

/-- Witness for C3: the first call of a one-create trace returns Ok 0. -/
theorem C3_id_monotonicity_witness :
    (execTrace (State.new 0) [Op.create 0 "Titulo"]).1.get? 0 =
      some (.createR (.ok 0)) ∧
    (0 : Nat) = successfulCreates
      ((execTrace (State.new 0) [Op.create 0 "Titulo"]).1.take 0) := by
  refine ⟨by decide, ?_⟩
  exact (C3_id_monotonicity 0 [Op.create 0 "Titulo"]).2 0 0 (by decide)

/-- C4: in any state reached from a fresh ledger, a stored proposal's
`votes_for` (resp. `votes_against`) equals the number of voters recorded in
the event log as having successfully voted true (resp. false) on it, those
voters are pairwise distinct across both sides, and no single call ever
decreases either counter of a stored proposal. -/
theorem C4_tally_correctness :
    (∀ (deployer : AccountId) (ops : List Op) (pid : Nat) (p : Proposal),
        (execTrace (State.new deployer) ops).2.1.proposals pid = some p →
        p.votes_for =
          (votersFor (execTrace (State.new deployer) ops).2.2 pid true).length ∧
        p.votes_against =
          (votersFor (execTrace (State.new deployer) ops).2.2 pid false).length ∧
        (votersFor (execTrace (State.new deployer) ops).2.2 pid true ++
          votersFor (execTrace (State.new deployer) ops).2.2 pid false).Nodup) ∧
    (∀ (s : State), Reachable s → ∀ (op : Op) (pid : Nat) (p : Proposal),
        s.proposals pid = some p →
        ∃ q, (exec1 s op).2.1.proposals pid = some q ∧
          p.votes_for ≤ q.votes_for ∧ p.votes_against ≤ q.votes_against) := by
  constructor
  · intro deployer ops pid p hp
    have hInv := inv_execTrace ops (State.new deployer) [] (inv_new deployer)
    rw [List.nil_append] at hInv
    obtain ⟨_, hf, ha⟩ := hInv.tally pid p hp
    exact ⟨hf, ha, hInv.voters_nodup pid⟩
  · intro s hs op pid p hp
    obtain ⟨log, hInv⟩ := reachable_inv s hs
    obtain ⟨q, hq, h1, h2, _, _⟩ := step_mono s log op pid p hInv hp
    exact ⟨q, hq, h1, h2⟩

/-- Witness for C4: one create and one successful vote. -/
theorem C4_tally_correctness_witness :
    ((execTrace (State.new 0) [Op.create 0 "t", Op.voteOn 1 0 true]).2.1.proposals 0 =
      some { id := 0, title := "t", votes_for := 1, votes_against := 0 }) ∧
    ((1 : Nat) = (votersFor
        (execTrace (State.new 0) [Op.create 0 "t", Op.voteOn 1 0 true]).2.2
        0 true).length) ∧
    (∃ q, (exec1 (execTrace (State.new 0) [Op.create 0 "t"]).2.1
          (Op.voteOn 1 0 true)).2.1.proposals 0 = some q ∧
        ({ id := 0, title := "t", votes_for := 0, votes_against := 0 } :
            Proposal).votes_for ≤ q.votes_for ∧
        ({ id := 0, title := "t", votes_for := 0, votes_against := 0 } :
            Proposal).votes_against ≤ q.votes_against) := by
  refine ⟨by decide, ?_, ?_⟩
  · exact (C4_tally_correctness.1 0 [Op.create 0 "t", Op.voteOn 1 0 true] 0
      { id := 0, title := "t", votes_for := 1, votes_against := 0 } (by decide)).1
  · exact C4_tally_correctness.2 _ ⟨0, [Op.create 0 "t"], rfl⟩
      (Op.voteOn 1 0 true) 0
      { id := 0, title := "t", votes_for := 0, votes_against := 0 } (by decide)

/-- C5: in a reachable state, a caller whose `has_voted` entry for an
existing proposal is set gets `AlreadyVoted` from `vote` for either support
value, and the state (hence both counters) is unchanged. -/
theorem C5_already_voted (s : State) (hs : Reachable s) (pid : Nat)
    (p : Proposal) (caller : AccountId)
    (hp : s.proposals pid = some p)
    (hv : (s.has_voted (pid, caller)).isSome = true) :
    ∀ b, vote caller pid b s = (.error .AlreadyVoted, s, []) := by
  obtain ⟨log, hInv⟩ := reachable_inv s hs
  obtain ⟨b0, hb0⟩ := Option.isSome_iff_exists.mp hv
  have hb := hInv.voted_true (pid, caller) b0 hb0
  subst hb
  intro b
  exact vote_already caller pid b s p hp (by rw [hb0]; rfl)

/-- Witness for C5: double vote by caller 1 on proposal 0. -/
theorem C5_already_voted_witness :
    vote 1 0 true
        (execTrace (State.new 0) [Op.create 0 "t", Op.voteOn 1 0 true]).2.1 =
      (.error .AlreadyVoted,
       (execTrace (State.new 0) [Op.create 0 "t", Op.voteOn 1 0 true]).2.1,
       []) :=
  C5_already_voted _ ⟨0, [Op.create 0 "t", Op.voteOn 1 0 true], rfl⟩ 0
    { id := 0, title := "t", votes_for := 1, votes_against := 0 } 1
    (by decide) (by decide) true

/-- C6: in a reachable state, every id at or above `next_proposal_id` (i.e.
never assigned) makes `vote` fail with `ProposalNotFound` (state unchanged,
no event) and `get_proposal` return `ProposalNotFound`; `get_proposal` is a
pure read in this embedding. -/
theorem C6_not_found (s : State) (hs : Reachable s) (id : Nat)
    (hid : s.next_proposal_id ≤ id) :
    (∀ (caller : AccountId) (b : Bool),
        vote caller id b s = (.error .ProposalNotFound, s, [])) ∧
    get_proposal s id = .error .ProposalNotFound := by
  obtain ⟨log, hInv⟩ := reachable_inv s hs
  have hn := hInv.fresh_none id hid
  exact ⟨fun caller b => vote_not_found caller id b s hn,
    by simp [get_proposal, hn]⟩

/-- Witness for C6: id 42 on a fresh ledger. -/
theorem C6_not_found_witness :
    (State.new 0).next_proposal_id ≤ 42 ∧
    vote 1 42 true (State.new 0) = (.error .ProposalNotFound, State.new 0, []) ∧
    get_proposal (State.new 0) 42 = .error .ProposalNotFound := by
  have h := C6_not_found (State.new 0) ⟨0, [], rfl⟩ 42 (Nat.zero_le 42)
  exact ⟨Nat.zero_le 42, h.1 1 true, h.2⟩

/-- C7: no call changes the id or title of an already stored proposal of a
reachable state, and a successful vote leaves the owner, the id counter and
every other proposal untouched. -/
theorem C7_immutability :
    (∀ (s : State), Reachable s → ∀ (op : Op) (pid : Nat) (p : Proposal),
        s.proposals pid = some p →
        ∃ q, (exec1 s op).2.1.proposals pid = some q ∧
          q.id = p.id ∧ q.title = p.title) ∧
    (∀ (caller : AccountId) (pid : Nat) (b : Bool) (s : State),
        (vote caller pid b s).1 = .ok () →
        (vote caller pid b s).2.1.owner = s.owner ∧
        (vote caller pid b s).2.1.next_proposal_id = s.next_proposal_id ∧
        ∀ pid2, pid2 ≠ pid →
          (vote caller pid b s).2.1.proposals pid2 = s.proposals pid2) := by
  constructor
  · intro s hs op pid p hp
    obtain ⟨log, hInv⟩ := reachable_inv s hs
    obtain ⟨q, hq, _, _, h1, h2⟩ := step_mono s log op pid p hInv hp
    exact ⟨q, hq, h1, h2⟩
  · intro caller pid b s h
    cases hp : s.proposals pid with
    | none =>
      rw [vote_not_found caller pid b s hp] at h
      simp at h
    | some p =>
      cases hv : (s.has_voted (pid, caller)).getD false with
      | true =>
        rw [vote_already caller pid b s p hp hv] at h
        simp at h
      | false =>
        cases b with
        | true =>
          cases hc : checkedAdd1 p.votes_for with
          | none =>
            rw [vote_overflow_true caller pid s p hp hv hc] at h
            simp at h
          | some v =>
            rw [vote_ok_true caller pid s p v hp hv hc]
            refine ⟨rfl, rfl, ?_⟩
            intro pid2 hne
            dsimp only
            exact mapInsert_other _ _ _ _ hne
        | false =>
          cases hc : checkedAdd1 p.votes_against with
          | none =>
            rw [vote_overflow_false caller pid s p hp hv hc] at h
            simp at h
          | some v =>
            rw [vote_ok_false caller pid s p v hp hv hc]
            refine ⟨rfl, rfl, ?_⟩
            intro pid2 hne
            dsimp only
            exact mapInsert_other _ _ _ _ hne

/-- Witness for C7: a vote on proposal 0 of a one-proposal ledger. -/
theorem C7_immutability_witness :
    (∃ q, (exec1 (execTrace (State.new 0) [Op.create 0 "t"]).2.1
          (Op.voteOn 1 0 true)).2.1.proposals 0 = some q ∧
        q.id = ({ id := 0, title := "t", votes_for := 0, votes_against := 0 } :
          Proposal).id ∧
        q.title = ({ id := 0, title := "t", votes_for := 0, votes_against := 0 } :
          Proposal).title) ∧
    (vote 1 0 true (execTrace (State.new 0) [Op.create 0 "t"]).2.1).2.1.owner =
      (execTrace (State.new 0) [Op.create 0 "t"]).2.1.owner := by
  constructor
  · exact C7_immutability.1 _ ⟨0, [Op.create 0 "t"], rfl⟩ (Op.voteOn 1 0 true) 0
      { id := 0, title := "t", votes_for := 0, votes_against := 0 } (by decide)
  · exact (C7_immutability.2 1 0 true _ (by decide)).1

/-- C8: when `next_proposal_id + 1` would exceed the `u32` range, an owner
call of `create_proposal` fails with `MaxProposalsReached` leaving the state
(counter included) unchanged and inserting nothing; consequently any call
sequence from a fresh ledger performs at most `2 ^ 32` successful creates. -/
theorem C8_max_proposals :
    (∀ (caller : AccountId) (title : String) (s : State),
        caller = s.owner → U32MAX < s.next_proposal_id + 1 →
        create_proposal caller title s = (.error .MaxProposalsReached, s, [])) ∧
    (∀ (deployer : AccountId) (ops : List Op),
        successfulCreates (execTrace (State.new deployer) ops).1 ≤ 2 ^ 32) := by
  constructor
  · intro caller title s ho hn
    exact create_max caller title s ho hn
  · intro deployer ops
    have h1 := trace_total ops (State.new deployer)
    have hInv := inv_execTrace ops (State.new deployer) [] (inv_new deployer)
    have h2 := hInv.next_le
    have h3 : U32MAX ≤ 2 ^ 32 := by unfold U32MAX; omega
    have h0 : (State.new deployer).next_proposal_id = 0 := rfl
    rw [h0] at h1
    omega

/-- Witness for C8: a ledger whose counter sits at `u32::MAX`. -/
theorem C8_max_proposals_witness :
    create_proposal 0 "t" { State.new 0 with next_proposal_id := U32MAX } =
      (.error .MaxProposalsReached,
       { State.new 0 with next_proposal_id := U32MAX }, []) ∧
    successfulCreates (execTrace (State.new 0) []).1 ≤ 2 ^ 32 :=
  ⟨C8_max_proposals.1 0 "t" { State.new 0 with next_proposal_id := U32MAX }
      rfl (Nat.lt_succ_self U32MAX),
   C8_max_proposals.2 0 []⟩

/-- C9: no reachable state stores a proposal under id `u32::MAX`, so
`get_proposal` and `vote` on that id fail with `ProposalNotFound` for every
caller and support value. -/
theorem C9_no_max_id (s : State) (hs : Reachable s) :
    s.proposals U32MAX = none ∧
    get_proposal s U32MAX = .error .ProposalNotFound ∧
    ∀ (caller : AccountId) (b : Bool),
      vote caller U32MAX b s = (.error .ProposalNotFound, s, []) := by
  obtain ⟨log, hInv⟩ := reachable_inv s hs
  have hn := hInv.fresh_none U32MAX hInv.next_le
  exact ⟨hn, by simp [get_proposal, hn],
    fun caller b => vote_not_found caller U32MAX b s hn⟩

/-- Witness for C9: the fresh ledger. -/
theorem C9_no_max_id_witness :
    (State.new 0).proposals U32MAX = none ∧
    get_proposal (State.new 0) U32MAX = .error .ProposalNotFound ∧
    vote 1 U32MAX true (State.new 0) =
      (.error .ProposalNotFound, State.new 0, []) := by
  obtain ⟨h1, h2, h3⟩ := C9_no_max_id (State.new 0) ⟨0, [], rfl⟩
  exact ⟨h1, h2, h3 1 true⟩

/-- C10: in a reachable state, every stored `has_voted` value is `true`;
absence is the only representation of "has not voted". -/
theorem C10_has_voted_only_true (s : State) (hs : Reachable s) :
    ∀ (k : Nat × AccountId) (b : Bool), s.has_voted k = some b → b = true := by
  obtain ⟨log, hInv⟩ := reachable_inv s hs
  exact hInv.voted_true

/-- Witness for C10: the entry written by a successful vote is `true`. -/
theorem C10_has_voted_only_true_witness :
    (execTrace (State.new 0) [Op.create 0 "t", Op.voteOn 1 0 true]).2.1.has_voted
        (0, 1) = some true ∧ true = true := by
  refine ⟨by decide, ?_⟩
  exact C10_has_voted_only_true _
    ⟨0, [Op.create 0 "t", Op.voteOn 1 0 true], rfl⟩ (0, 1) true (by decide)

end Votaciones
